import Mathlib

/-!
Verification of the resilience core of the temandifa-ai-service repository.

Shallow embedding of:
- app/core/performance/circuit_breaker.py  (CircuitBreaker)
- app/core/degradation.py                  (ServiceHealth, GracefulDegradation)
- app/core/performance/memory_pool.py      (MemoryPool)
- app/core/performance/batcher.py          (DynamicBatcher)

Python wall-clock timestamps (time.time()) are modeled as integers passed
explicitly to each operation that reads the clock; the code only ever
subtracts and compares timestamps, so any linearly ordered additive group
is faithful.  Mutating methods become functions from the object state to
the updated state.
-/

namespace Temandifa

/-! ### CircuitBreaker (app/core/performance/circuit_breaker.py)

States are the string constants STATE_CLOSED / STATE_OPEN / STATE_HALF_OPEN.
-/

inductive CBState where
  | closed
  | opened
  | halfOpen
deriving DecidableEq, Repr

structure CircuitBreaker where
  name : String
  failure_threshold : Nat
  recovery_timeout : Int
  half_open_max_calls : Nat
  state : CBState
  failure_count : Nat
  last_failure_time : Int
  half_open_calls : Nat
deriving DecidableEq, Repr

/-- Constructor __init__ (lines 30-54): configuration plus the initial
CLOSED state with zeroed counters. -/
def mkCircuitBreaker (name : String) (failure_threshold : Nat)
    (recovery_timeout : Int) (half_open_max_calls : Nat) : CircuitBreaker :=
  { name := name
    failure_threshold := failure_threshold
    recovery_timeout := recovery_timeout
    half_open_max_calls := half_open_max_calls
    state := CBState.closed
    failure_count := 0
    last_failure_time := 0
    half_open_calls := 0 }

/-- can_execute (lines 56-74).  Returns the boolean answer together with the
(possibly updated) breaker: in OPEN state, once strictly more than
recovery_timeout has passed since last_failure_time, it switches to
HALF_OPEN with half_open_calls reset to 0 as a side effect. -/
def can_execute (cb : CircuitBreaker) (now : Int) : Bool × CircuitBreaker :=
  if cb.state = CBState.closed then (true, cb)
  else if cb.state = CBState.opened then
    if now - cb.last_failure_time > cb.recovery_timeout then
      (true, { cb with state := CBState.halfOpen, half_open_calls := 0 })
    else (false, cb)
  else if cb.state = CBState.halfOpen then
    (decide (cb.half_open_calls < cb.half_open_max_calls), cb)
  else (false, cb)

/-- record_success (lines 76-83). -/
def record_success (cb : CircuitBreaker) : CircuitBreaker :=
  if cb.state = CBState.halfOpen then
    { cb with state := CBState.closed, failure_count := 0 }
  else if cb.state = CBState.closed then
    { cb with failure_count := 0 }
  else cb

/-- record_failure (lines 85-101): increments failure_count, stamps
last_failure_time, then transitions HALF_OPEN→OPEN, or (elsewhere)
to OPEN once failure_count ≥ failure_threshold. -/
def record_failure (cb : CircuitBreaker) (now : Int) : CircuitBreaker :=
  let cb1 := { cb with failure_count := cb.failure_count + 1, last_failure_time := now }
  if cb1.state = CBState.halfOpen then { cb1 with state := CBState.opened }
  else if cb1.failure_threshold ≤ cb1.failure_count then { cb1 with state := CBState.opened }
  else cb1

/-- Manual reset (lines 131-136). -/
def reset (cb : CircuitBreaker) : CircuitBreaker :=
  { cb with state := CBState.closed, failure_count := 0, half_open_calls := 0 }

/-- Outcome of execute (lines 103-120): the protected function's value, a
re-raised genuine failure, or the distinct CircuitBreakerOpenError raised
pre-attempt. -/
inductive ExecResult (R : Type) where
  | ok (r : R)
  | failed
  | breakerOpenError
deriving DecidableEq, Repr

/-- execute (lines 103-120).  The protected callable is modeled as a
function producing either a value or an exception; the middle component of
the result records whether the callable was actually invoked. -/
def execute {R : Type} (cb : CircuitBreaker) (now : Int)
    (func : Unit → Except Unit R) : ExecResult R × Bool × CircuitBreaker :=
  let p := can_execute cb now
  if p.1 then
    let cb2 :=
      if p.2.state = CBState.halfOpen then
        { p.2 with half_open_calls := p.2.half_open_calls + 1 }
      else p.2
    match func () with
    | Except.ok r => (ExecResult.ok r, true, record_success cb2)
    | Except.error _ => (ExecResult.failed, true, record_failure cb2 now)
  else
    (ExecResult.breakerOpenError, false, p.2)

/-! Micro-step view of the breaker: every public operation is a sequence of
the three primitive mutations (a timed can_execute check, the HALF_OPEN
probe-counter bump inside execute, a recorded success, a recorded failure).
-/

inductive MicroOp where
  | check (now : Int)
  | probe
  | success
  | failure (now : Int)

def microStep (cb : CircuitBreaker) : MicroOp → CircuitBreaker
  | MicroOp.check now => (can_execute cb now).2
  | MicroOp.probe =>
      if cb.state = CBState.halfOpen then
        { cb with half_open_calls := cb.half_open_calls + 1 }
      else cb
  | MicroOp.success => record_success cb
  | MicroOp.failure now => record_failure cb now

def runMicro (cb : CircuitBreaker) : List MicroOp → CircuitBreaker
  | [] => cb
  | m :: ms => runMicro (microStep cb m) ms

/-- The micro-step decomposition of execute: a can_execute check, then (if
admitted) the probe-counter bump followed by the recorded outcome. -/
def execMicro {R : Type} (cb : CircuitBreaker) (now : Int)
    (outcome : Except Unit R) : List MicroOp :=
  if (can_execute cb now).1 then
    [MicroOp.check now, MicroOp.probe,
      match outcome with
      | Except.ok _ => MicroOp.success
      | Except.error _ => MicroOp.failure now]
  else [MicroOp.check now]

/-- The transitions the specification allows, as a labelled relation: the
state is unchanged, or CLOSED→OPEN on a recorded failure reaching
failure_threshold, or OPEN→HALF_OPEN on a can_execute check after
recovery_timeout has elapsed, or HALF_OPEN→CLOSED on a recorded success,
or HALF_OPEN→OPEN on a recorded failure. -/
def SpecTransition (cb : CircuitBreaker) (m : MicroOp) (cb' : CircuitBreaker) : Prop :=
  cb'.state = cb.state ∨
  (cb.state = CBState.closed ∧ cb'.state = CBState.opened ∧
    (∃ t, m = MicroOp.failure t) ∧
    cb'.failure_count = cb.failure_count + 1 ∧
    cb.failure_threshold ≤ cb'.failure_count) ∨
  (cb.state = CBState.opened ∧ cb'.state = CBState.halfOpen ∧
    (∃ t, m = MicroOp.check t ∧ cb.recovery_timeout < t - cb.last_failure_time)) ∨
  (cb.state = CBState.halfOpen ∧ cb'.state = CBState.closed ∧ m = MicroOp.success) ∨
  (cb.state = CBState.halfOpen ∧ cb'.state = CBState.opened ∧
    ∃ t, m = MicroOp.failure t)

/-- C4: every primitive mutation of the breaker follows the specified
transition list; while HALF_OPEN, can_execute admits a call exactly when
fewer than half_open_max_calls probes have been counted (excess calls are
rejected like an OPEN breaker); and execute is exactly the composition of
these primitive mutations. -/
theorem circuit_breaker_transitions (R : Type) :
    (∀ (cb : CircuitBreaker) (m : MicroOp), SpecTransition cb m (microStep cb m)) ∧
    (∀ (cb : CircuitBreaker) (now : Int), cb.state = CBState.halfOpen →
      ((can_execute cb now).1 = true ↔ cb.half_open_calls < cb.half_open_max_calls)) ∧
    (∀ (cb : CircuitBreaker) (now : Int) (outcome : Except Unit R),
      (execute cb now (fun _ => outcome)).2.2 = runMicro cb (execMicro cb now outcome)) := by
  refine ⟨?_, ?_, ?_⟩
  · intro cb m
    cases m with
    | check now =>
        by_cases h1 : cb.state = CBState.closed
        · left
          simp [microStep, can_execute, h1]
        · by_cases h2 : cb.state = CBState.opened
          · by_cases h3 : now - cb.last_failure_time > cb.recovery_timeout
            · right; right; left
              refine ⟨h2, ?_, now, rfl, h3⟩
              simp [microStep, can_execute, h1, h2, h3]
            · left
              simp [microStep, can_execute, h1, h2, h3]
          · left
            by_cases h3 : cb.state = CBState.halfOpen <;>
              simp [microStep, can_execute, h1, h2, h3]
    | probe =>
        left
        by_cases h : cb.state = CBState.halfOpen <;> simp [microStep, h]
    | success =>
        by_cases h1 : cb.state = CBState.halfOpen
        · right; right; right; left
          exact ⟨h1, by simp [microStep, record_success, h1], rfl⟩
        · left
          by_cases h2 : cb.state = CBState.closed <;>
            simp [microStep, record_success, h1, h2]
    | failure now =>
        by_cases h1 : cb.state = CBState.halfOpen
        · right; right; right; right
          refine ⟨h1, ?_, now, rfl⟩
          simp [microStep, record_failure, h1]
        · by_cases h2 : cb.failure_threshold ≤ cb.failure_count + 1
          · by_cases h3 : cb.state = CBState.closed
            · right; left
              refine ⟨h3, ?_, ⟨now, rfl⟩, ?_, ?_⟩ <;>
                simp [microStep, record_failure, h1, h2, h3]
            · left
              simp [microStep, record_failure, h1, h2]
              cases h4 : cb.state <;> simp_all
          · left
            simp [microStep, record_failure, h1, h2]
  · intro cb now h
    have h1 : cb.state ≠ CBState.closed := by simp [h]
    have h2 : cb.state ≠ CBState.opened := by simp [h]
    simp [can_execute, h, h1, h2]
  · intro cb now outcome
    by_cases h : (can_execute cb now).1
    · cases outcome <;> simp [execute, execMicro, runMicro, microStep, h]
    · cases outcome <;> simp [execute, execMicro, runMicro, microStep, h]

/-- Witness for C4: a HALF_OPEN breaker that has used up its probe budget
is rejected by can_execute. -/
theorem circuit_breaker_transitions_witness :
    (can_execute
        { name := "gemini-api", failure_threshold := 5, recovery_timeout := 30,
          half_open_max_calls := 3, state := CBState.halfOpen, failure_count := 5,
          last_failure_time := 0, half_open_calls := 3 } 0).1 = true ↔ (3 : Nat) < 3 :=
  (circuit_breaker_transitions Nat).2.1 _ 0 rfl

/-- C6: when can_execute answers false, execute raises the distinct
CircuitBreakerOpenError without invoking the protected callable, and the
breaker is left entirely unchanged (state, failure_count,
last_failure_time, half_open_calls). -/
theorem execute_rejected_frame (R : Type) (cb : CircuitBreaker) (now : Int)
    (func : Unit → Except Unit R) (h : (can_execute cb now).1 = false) :
    execute cb now func = (ExecResult.breakerOpenError, false, cb) ∧
    (can_execute cb now).2 = cb ∧
    (ExecResult.breakerOpenError : ExecResult R) ≠ ExecResult.failed := by
  have hid : (can_execute cb now).2 = cb := by
    by_cases h1 : cb.state = CBState.closed
    · simp [can_execute, h1] at h
    · by_cases h2 : cb.state = CBState.opened
      · by_cases h3 : now - cb.last_failure_time > cb.recovery_timeout
        · simp [can_execute, h1, h2, h3] at h
        · simp [can_execute, h1, h2, h3]
      · by_cases h3 : cb.state = CBState.halfOpen <;> simp [can_execute, h1, h2, h3]
  refine ⟨?_, hid, by simp⟩
  simp [execute, h, hid]

/-- Witness for C6: an OPEN breaker inside its cooling-off window rejects
an execute call and is unchanged by the rejection. -/
theorem execute_rejected_frame_witness :
    execute
        { name := "gemini-api", failure_threshold := 5, recovery_timeout := 30,
          half_open_max_calls := 3, state := CBState.opened, failure_count := 5,
          last_failure_time := 0, half_open_calls := 0 } 10
        (fun _ => Except.ok (0 : Nat)) =
      (ExecResult.breakerOpenError, false,
        { name := "gemini-api", failure_threshold := 5, recovery_timeout := 30,
          half_open_max_calls := 3, state := CBState.opened, failure_count := 5,
          last_failure_time := 0, half_open_calls := 0 }) :=
  (execute_rejected_frame Nat _ 10 _ (by decide)).1

/-- C10: record_success on an OPEN breaker changes nothing at all; a
recorded failure keeps an OPEN breaker OPEN; only the manual reset (or
can_execute's timed transition) takes the breaker out of OPEN. -/
theorem record_success_open_noop (cb : CircuitBreaker) (h : cb.state = CBState.opened) :
    record_success cb = cb ∧
    (∀ now, (record_failure cb now).state = CBState.opened) ∧
    (reset cb).state = CBState.closed := by
  refine ⟨?_, ?_, rfl⟩
  · simp [record_success, h]
  · intro now
    by_cases h2 : cb.failure_threshold ≤ cb.failure_count + 1 <;>
      simp [record_failure, h, h2]

/-! C5 machinery: the admission phase of execute (lines 105-112: the
can_execute check plus the HALF_OPEN probe-counter bump), iterated while
the probes' outcomes are still pending, counts how many concurrent probe
calls the breaker admits. -/

/-- The admission phase of execute: check can_execute and, if admitted
while HALF_OPEN, count the probe.  No outcome is recorded yet. -/
def beginCall (cb : CircuitBreaker) (now : Int) : Bool × CircuitBreaker :=
  let p := can_execute cb now
  if p.1 then
    (true,
      if p.2.state = CBState.halfOpen then
        { p.2 with half_open_calls := p.2.half_open_calls + 1 }
      else p.2)
  else (false, p.2)

/-- How many of k successive admission attempts (all before any outcome is
recorded) the breaker admits. -/
def admittedCount (cb : CircuitBreaker) (now : Int) : Nat → Nat
  | 0 => 0
  | Nat.succ k =>
      (if (beginCall cb now).1 then 1 else 0) + admittedCount (beginCall cb now).2 now k

/-- A sequence of recorded failures at the given timestamps. -/
def record_failures (cb : CircuitBreaker) : List Int → CircuitBreaker
  | [] => cb
  | t :: ts => record_failures (record_failure cb t) ts

theorem record_failure_fields (cb : CircuitBreaker) (now : Int) :
    (record_failure cb now).failure_threshold = cb.failure_threshold ∧
    (record_failure cb now).recovery_timeout = cb.recovery_timeout ∧
    (record_failure cb now).half_open_max_calls = cb.half_open_max_calls ∧
    (record_failure cb now).last_failure_time = now ∧
    (record_failure cb now).failure_count = cb.failure_count + 1 := by
  simp only [record_failure]
  split_ifs <;> simp

theorem record_failures_fields : ∀ (ts : List Int) (cb : CircuitBreaker),
    (record_failures cb ts).failure_threshold = cb.failure_threshold ∧
    (record_failures cb ts).recovery_timeout = cb.recovery_timeout ∧
    (record_failures cb ts).half_open_max_calls = cb.half_open_max_calls ∧
    (record_failures cb ts).last_failure_time = ts.getLastD cb.last_failure_time := by
  intro ts
  induction ts with
  | nil => intro cb; simp [record_failures]
  | cons t ts ih =>
      intro cb
      have h := record_failure_fields cb t
      have h2 := ih (record_failure cb t)
      simp only [record_failures, List.getLastD_cons]
      exact ⟨by rw [h2.1, h.1], by rw [h2.2.1, h.2.1], by rw [h2.2.2.1, h.2.2.1],
        by rw [h2.2.2.2, h.2.2.2.1]⟩

theorem record_failures_opened_of_opened : ∀ (ts : List Int) (cb : CircuitBreaker),
    cb.state = CBState.opened → (record_failures cb ts).state = CBState.opened := by
  intro ts
  induction ts with
  | nil => intro cb h; exact h
  | cons t ts ih =>
      intro cb h
      refine ih _ ?_
      by_cases h2 : cb.failure_threshold ≤ cb.failure_count + 1 <;>
        simp [record_failure, h, h2]

theorem record_failures_opened : ∀ (ts : List Int) (cb : CircuitBreaker),
    cb.state = CBState.closed → cb.failure_threshold ≤ cb.failure_count + ts.length →
    ts ≠ [] → (record_failures cb ts).state = CBState.opened := by
  intro ts
  induction ts with
  | nil => intro cb _ _ h; exact absurd rfl h
  | cons t ts ih =>
      intro cb hs hle _
      by_cases hth : cb.failure_threshold ≤ cb.failure_count + 1
      · have h1 : (record_failure cb t).state = CBState.opened := by
          simp [record_failure, hs, hth]
        exact record_failures_opened_of_opened ts _ h1
      · cases ts with
        | nil =>
            simp only [List.length_cons, List.length_nil] at hle
            omega
        | cons t2 ts2 =>
            have h1 : (record_failure cb t).state = CBState.closed := by
              simp [record_failure, hs, hth]
            have h2 := record_failure_fields cb t
            refine ih _ h1 ?_ (by simp)
            rw [h2.1, h2.2.2.2.2]
            simp only [List.length_cons] at hle ⊢
            omega

theorem admittedCount_halfOpen : ∀ (k : Nat) (cb : CircuitBreaker) (now : Int),
    cb.state = CBState.halfOpen →
    admittedCount cb now k = min k (cb.half_open_max_calls - cb.half_open_calls) := by
  intro k
  induction k with
  | zero => intro cb now _; simp [admittedCount]
  | succ k ih =>
      intro cb now h
      by_cases hlt : cb.half_open_calls < cb.half_open_max_calls
      · have hb : beginCall cb now =
            (true, { cb with half_open_calls := cb.half_open_calls + 1 }) := by
          simp [beginCall, can_execute, h, hlt]
        rw [admittedCount, hb]
        rw [ih { cb with half_open_calls := cb.half_open_calls + 1 } now (by simp [h])]
        simp only [if_pos trivial]
        omega
      · have hb : beginCall cb now = (false, cb) := by
          simp [beginCall, can_execute, h, hlt]
        rw [admittedCount, hb]
        rw [ih cb now h]
        simp only [show ((false, cb).1 = true) = False by simp, if_false]
        omega

theorem admittedCount_opened (cb : CircuitBreaker) (now : Int) (k : Nat)
    (hs : cb.state = CBState.opened)
    (ht : cb.recovery_timeout < now - cb.last_failure_time) :
    admittedCount cb now k = min k (max cb.half_open_max_calls 1) := by
  cases k with
  | zero => simp [admittedCount]
  | succ k =>
      have hb : beginCall cb now =
          (true, { cb with state := CBState.halfOpen, half_open_calls := 1 }) := by
        simp [beginCall, can_execute, hs, ht]
      rw [admittedCount, hb]
      rw [admittedCount_halfOpen k _ now rfl]
      simp only [if_pos trivial]
      omega

/-- C5 counterexample: a breaker configured with half_open_max_calls = 0
still admits one probe after the recovery timeout elapses (the
OPEN→HALF_OPEN transition inside can_execute returns True before the probe
cap is consulted), so "exactly half_open_max_calls calls are admitted" fails
at this input: 1 call is admitted, not 0. -/
theorem circuit_breaker_zero_budget_counterexample :
    (record_failure (mkCircuitBreaker "cb" 1 30 0) 0).state = CBState.opened ∧
    (record_failure (mkCircuitBreaker "cb" 1 30 0) 0).half_open_max_calls = 0 ∧
    (record_failure (mkCircuitBreaker "cb" 1 30 0) 0).recovery_timeout <
      100 - (record_failure (mkCircuitBreaker "cb" 1 30 0) 0).last_failure_time ∧
    admittedCount (record_failure (mkCircuitBreaker "cb" 1 30 0) 0) 100 1 = 1 := by
  decide

/-- C5 (amended): after failure_threshold consecutive recorded failures
from a CLOSED breaker, can_execute is false (and the breaker unchanged) on
every call made at most recovery_timeout after the last failure; once
strictly more than recovery_timeout has elapsed, exactly
max(half_open_max_calls, 1) admission attempts are granted — equal to
half_open_max_calls whenever that cap is at least 1 — before the probes'
recorded outcomes re-evaluate the breaker to CLOSED (success) or OPEN
(failure). -/
theorem circuit_breaker_recovery (cb : CircuitBreaker) (ts : List Int) (now : Int) (k : Nat)
    (hclosed : cb.state = CBState.closed)
    (hlen : cb.failure_threshold ≤ cb.failure_count + ts.length)
    (hne : ts ≠ []) :
    (record_failures cb ts).state = CBState.opened ∧
    (record_failures cb ts).last_failure_time = ts.getLastD cb.last_failure_time ∧
    (now - (record_failures cb ts).last_failure_time ≤ (record_failures cb ts).recovery_timeout →
      can_execute (record_failures cb ts) now = (false, record_failures cb ts)) ∧
    ((record_failures cb ts).recovery_timeout < now - (record_failures cb ts).last_failure_time →
      admittedCount (record_failures cb ts) now k =
        min k (max (record_failures cb ts).half_open_max_calls 1)) ∧
    ((record_failures cb ts).recovery_timeout < now - (record_failures cb ts).last_failure_time →
      (record_success (beginCall (record_failures cb ts) now).2).state = CBState.closed ∧
      (record_failure (beginCall (record_failures cb ts) now).2 now).state = CBState.opened) := by
  have hop := record_failures_opened ts cb hclosed hlen hne
  have hf := record_failures_fields ts cb
  refine ⟨hop, hf.2.2.2, ?_, ?_, ?_⟩
  · intro hle
    have : ¬ (now - (record_failures cb ts).last_failure_time >
        (record_failures cb ts).recovery_timeout) := by omega
    simp [can_execute, hop, this]
  · intro hgt
    exact admittedCount_opened _ now k hop hgt
  · intro hgt
    have hb : (beginCall (record_failures cb ts) now).2 =
        { record_failures cb ts with state := CBState.halfOpen, half_open_calls := 1 } := by
      simp [beginCall, can_execute, hop, hgt]
    rw [hb]
    constructor
    · simp [record_success]
    · simp [record_failure]

/-- Witness for C5: a breaker with threshold 2, timeout 30, probe cap 3;
two failures at times 1 and 2; at time 40 the window has elapsed and 5
admission attempts yield exactly min 5 (max 3 1) = 3 admissions. -/
theorem circuit_breaker_recovery_witness :
    admittedCount (record_failures (mkCircuitBreaker "gemini-api" 2 30 3) [1, 2]) 40 5 =
      min 5 (max (record_failures (mkCircuitBreaker "gemini-api" 2 30 3) [1, 2]).half_open_max_calls 1) :=
  ((circuit_breaker_recovery (mkCircuitBreaker "gemini-api" 2 30 3) [1, 2] 40 5 rfl
      (by decide) (by decide)).2.2.2.1 (by decide))

/-- Witness for C10: a concrete OPEN breaker is untouched by record_success. -/
theorem record_success_open_noop_witness :
    record_success
        { name := "gemini-api", failure_threshold := 5, recovery_timeout := 30,
          half_open_max_calls := 3, state := CBState.opened, failure_count := 5,
          last_failure_time := 7, half_open_calls := 1 } =
      { name := "gemini-api", failure_threshold := 5, recovery_timeout := 30,
        half_open_max_calls := 3, state := CBState.opened, failure_count := 5,
        last_failure_time := 7, half_open_calls := 1 } :=
  (record_success_open_noop _ rfl).1

/-! ### Graceful degradation (app/core/degradation.py) -/

inductive ServiceStatus where
  | healthy
  | degraded
  | unavailable
deriving DecidableEq, Repr

structure ServiceHealth where
  name : String
  status : ServiceStatus
  consecutive_failures : Nat
  last_failure_time : Int
  last_success_time : Int
  failure_threshold : Nat
  recovery_timeout : Int
  total_requests : Nat
  total_failures : Nat
deriving DecidableEq, Repr

/-- The ServiceHealth dataclass constructor (lines 30-42); the dataclass
defaults are failure_threshold = 3 and recovery_timeout = 60. -/
def mkServiceHealth (name : String) (failure_threshold : Nat) (recovery_timeout : Int) :
    ServiceHealth :=
  { name := name
    status := ServiceStatus.healthy
    consecutive_failures := 0
    last_failure_time := 0
    last_success_time := 0
    failure_threshold := failure_threshold
    recovery_timeout := recovery_timeout
    total_requests := 0
    total_failures := 0 }

/-- ServiceHealth.record_success (lines 44-51). -/
def ServiceHealth.record_success (h : ServiceHealth) (now : Int) : ServiceHealth :=
  { h with consecutive_failures := 0, last_success_time := now,
           total_requests := h.total_requests + 1, status := ServiceStatus.healthy }

/-- ServiceHealth.record_failure (lines 53-68): the status moves to
UNAVAILABLE at consecutive_failures ≥ failure_threshold, else to DEGRADED
at consecutive_failures ≥ failure_threshold // 2, else stays what it was. -/
def ServiceHealth.record_failure (h : ServiceHealth) (now : Int) : ServiceHealth :=
  let h1 := { h with consecutive_failures := h.consecutive_failures + 1,
                     last_failure_time := now,
                     total_requests := h.total_requests + 1,
                     total_failures := h.total_failures + 1 }
  if h1.failure_threshold ≤ h1.consecutive_failures then
    { h1 with status := ServiceStatus.unavailable }
  else if h1.failure_threshold / 2 ≤ h1.consecutive_failures then
    { h1 with status := ServiceStatus.degraded }
  else h1

/-- ServiceHealth.should_attempt_recovery (lines 70-75): true when HEALTHY,
otherwise true once at least recovery_timeout has passed since the last
failure. -/
def ServiceHealth.should_attempt_recovery (h : ServiceHealth) (now : Int) : Bool :=
  if h.status = ServiceStatus.healthy then true
  else decide (h.recovery_timeout ≤ now - h.last_failure_time)

/-- GracefulDegradation (lines 102-141): its dict of per-service health
records, modeled as a total map (get_service_health inserts a default
ServiceHealth for unknown keys, so the map is total with default entries). -/
structure GracefulDegradation where
  services : String → ServiceHealth

def GracefulDegradation.start : GracefulDegradation :=
  ⟨fun s => mkServiceHealth s 3 60⟩

/-- get_service_health (lines 115-119). -/
def get_service_health (gd : GracefulDegradation) (s : String) : ServiceHealth :=
  gd.services s

/-- GracefulDegradation.record_success (lines 121-123). -/
def GracefulDegradation.record_success (gd : GracefulDegradation) (s : String) (now : Int) :
    GracefulDegradation :=
  ⟨fun s' => if s' = s then (get_service_health gd s).record_success now else gd.services s'⟩

/-- GracefulDegradation.record_failure (lines 125-127). -/
def GracefulDegradation.record_failure (gd : GracefulDegradation) (s : String) (now : Int) :
    GracefulDegradation :=
  ⟨fun s' => if s' = s then (get_service_health gd s).record_failure now else gd.services s'⟩

/-- should_use_fallback (lines 129-137): pure read, no state update. -/
def should_use_fallback (gd : GracefulDegradation) (s : String) (now : Int) : Bool :=
  let health := get_service_health gd s
  if health.status = ServiceStatus.unavailable then
    if health.should_attempt_recovery now then false else true
  else false

/-! C7: the status is a function of consecutive_failures against the two
thresholds, along every record_success / record_failure trace. -/

inductive SHOp where
  | success (now : Int)
  | failure (now : Int)

def healthStep (h : ServiceHealth) : SHOp → ServiceHealth
  | SHOp.success now => h.record_success now
  | SHOp.failure now => h.record_failure now

def runHealth (h : ServiceHealth) : List SHOp → ServiceHealth
  | [] => h
  | op :: ops => runHealth (healthStep h op) ops

/-- The status the two thresholds dictate for a given count of consecutive
failures. -/
def statusOf (ft cf : Nat) : ServiceStatus :=
  if ft ≤ cf then ServiceStatus.unavailable
  else if ft / 2 ≤ cf then ServiceStatus.degraded
  else ServiceStatus.healthy

theorem runHealth_status_inv : ∀ (ops : List SHOp) (h : ServiceHealth),
    ((h.consecutive_failures = 0 ∧ h.status = ServiceStatus.healthy) ∨
      (0 < h.consecutive_failures ∧
        h.status = statusOf h.failure_threshold h.consecutive_failures)) →
    (runHealth h ops).failure_threshold = h.failure_threshold ∧
    (((runHealth h ops).consecutive_failures = 0 ∧
        (runHealth h ops).status = ServiceStatus.healthy) ∨
      (0 < (runHealth h ops).consecutive_failures ∧
        (runHealth h ops).status =
          statusOf h.failure_threshold (runHealth h ops).consecutive_failures)) := by
  intro ops
  induction ops with
  | nil => intro h hinv; exact ⟨rfl, hinv⟩
  | cons op ops ih =>
      intro h hinv
      have hstep :
          (healthStep h op).failure_threshold = h.failure_threshold ∧
          (((healthStep h op).consecutive_failures = 0 ∧
              (healthStep h op).status = ServiceStatus.healthy) ∨
            (0 < (healthStep h op).consecutive_failures ∧
              (healthStep h op).status =
                statusOf h.failure_threshold (healthStep h op).consecutive_failures)) := by
        cases op with
        | success now => exact ⟨rfl, Or.inl ⟨rfl, rfl⟩⟩
        | failure now =>
            by_cases h1 : h.failure_threshold ≤ h.consecutive_failures + 1
            · refine ⟨by simp [healthStep, ServiceHealth.record_failure, h1], Or.inr ⟨?_, ?_⟩⟩
              · simp [healthStep, ServiceHealth.record_failure, h1]
              · simp [healthStep, ServiceHealth.record_failure, h1, statusOf]
            · by_cases h2 : h.failure_threshold / 2 ≤ h.consecutive_failures + 1
              · refine ⟨by simp [healthStep, ServiceHealth.record_failure, h1, h2],
                  Or.inr ⟨?_, ?_⟩⟩
                · simp [healthStep, ServiceHealth.record_failure, h1, h2]
                · simp [healthStep, ServiceHealth.record_failure, h1, h2, statusOf]
              · have hstat : h.status = ServiceStatus.healthy := by
                  rcases hinv with ⟨_, hh⟩ | ⟨hpos, hh⟩
                  · exact hh
                  · rw [hh, statusOf, if_neg (by omega), if_neg (by omega)]
                refine ⟨by simp [healthStep, ServiceHealth.record_failure, h1, h2],
                  Or.inr ⟨?_, ?_⟩⟩
                · simp [healthStep, ServiceHealth.record_failure, h1, h2]
                · simp [healthStep, ServiceHealth.record_failure, h1, h2, hstat, statusOf]
      have := ih (healthStep h op) (hstep.1 ▸ hstep.2)
      rw [runHealth]
      exact ⟨this.1.trans hstep.1, hstep.1 ▸ this.2⟩

/-- C7: along every trace of record_success / record_failure calls from a
fresh ServiceHealth, the status is dictated by consecutive_failures against
the two thresholds — UNAVAILABLE at ≥ failure_threshold, DEGRADED at
≥ floor(failure_threshold/2) (with a zero count only ever paired with
HEALTHY); and a single recorded success from any reachable state restores
HEALTHY with consecutive_failures = 0. -/
theorem service_health_status (name : String) (ft : Nat) (rt : Int) (ops : List SHOp) :
    (((runHealth (mkServiceHealth name ft rt) ops).consecutive_failures = 0 ∧
        (runHealth (mkServiceHealth name ft rt) ops).status = ServiceStatus.healthy) ∨
      (0 < (runHealth (mkServiceHealth name ft rt) ops).consecutive_failures ∧
        (runHealth (mkServiceHealth name ft rt) ops).status =
          statusOf ft (runHealth (mkServiceHealth name ft rt) ops).consecutive_failures)) ∧
    (∀ t, ((runHealth (mkServiceHealth name ft rt) ops).record_success t).status =
        ServiceStatus.healthy ∧
      ((runHealth (mkServiceHealth name ft rt) ops).record_success t).consecutive_failures = 0) := by
  have h := runHealth_status_inv ops (mkServiceHealth name ft rt) (Or.inl ⟨rfl, rfl⟩)
  exact ⟨h.2, fun t => ⟨rfl, rfl⟩⟩

/-- Witness for C7, at the spec's failure_threshold = 4 example: two
consecutive failures give DEGRADED, four give UNAVAILABLE, and one success
restores HEALTHY with a zero count. -/
theorem service_health_status_witness :
    (runHealth (mkServiceHealth "ocr" 4 60) [SHOp.failure 1, SHOp.failure 2]).status =
      ServiceStatus.degraded ∧
    (runHealth (mkServiceHealth "ocr" 4 60)
        [SHOp.failure 1, SHOp.failure 2, SHOp.failure 3, SHOp.failure 4]).status =
      ServiceStatus.unavailable ∧
    ((runHealth (mkServiceHealth "ocr" 4 60) [SHOp.failure 1, SHOp.failure 2]).record_success
        5).status = ServiceStatus.healthy ∧
    ((runHealth (mkServiceHealth "ocr" 4 60) [SHOp.failure 1, SHOp.failure 2]).record_success
        5).consecutive_failures = 0 :=
  ⟨by decide, by decide,
    ((service_health_status "ocr" 4 60 [SHOp.failure 1, SHOp.failure 2]).2 5).1,
    ((service_health_status "ocr" 4 60 [SHOp.failure 1, SHOp.failure 2]).2 5).2⟩

/-- C8 counterexample: should_use_fallback performs no state update, so
after the recovery timeout has elapsed it returns false on EVERY call until
some outcome is recorded — here two successive calls (times 60 and 61,
inside one elapsed recovery_timeout window, with no recorded outcome in
between) both return false, where the claim requires false exactly once per
window and true on every other call. -/
theorem should_use_fallback_repeated_probe :
    (get_service_health
        (((GracefulDegradation.start.record_failure "detection" 0).record_failure
            "detection" 0).record_failure "detection" 0) "detection").status =
      ServiceStatus.unavailable ∧
    should_use_fallback
        (((GracefulDegradation.start.record_failure "detection" 0).record_failure
            "detection" 0).record_failure "detection" 0) "detection" 60 = false ∧
    should_use_fallback
        (((GracefulDegradation.start.record_failure "detection" 0).record_failure
            "detection" 0).record_failure "detection" 0) "detection" 61 = false := by
  decide

/-- C8 (amended): should_use_fallback returns false whenever the service's
status is not UNAVAILABLE; when UNAVAILABLE it returns true exactly while
strictly less than recovery_timeout has elapsed since last_failure_time and
false (permitting a probe) on every call at or after that point — the call
itself records nothing, so only a recorded outcome (a failure restarting
the window, or a success restoring HEALTHY) ends the run of
probe-permitting calls. -/
theorem should_use_fallback_characterization (gd : GracefulDegradation) (s : String)
    (now t : Int) :
    (should_use_fallback gd s now = true ↔
      ((get_service_health gd s).status = ServiceStatus.unavailable ∧
        now - (get_service_health gd s).last_failure_time <
          (get_service_health gd s).recovery_timeout)) ∧
    (get_service_health (gd.record_failure s t) s).last_failure_time = t ∧
    (get_service_health (gd.record_success s t) s).status = ServiceStatus.healthy := by
  refine ⟨?_, ?_, ?_⟩
  · by_cases hu : (get_service_health gd s).status = ServiceStatus.unavailable
    · have hh : ¬ (get_service_health gd s).status = ServiceStatus.healthy := by
        simp [hu]
      by_cases hr : (get_service_health gd s).recovery_timeout ≤
          now - (get_service_health gd s).last_failure_time
      · simp only [should_use_fallback, ServiceHealth.should_attempt_recovery, hu, hh]
        simp [hr]
        try omega
      · simp only [should_use_fallback, ServiceHealth.should_attempt_recovery, hu, hh]
        simp [hr]
        try omega
    · simp [should_use_fallback, hu]
  · simp only [GracefulDegradation.record_failure, get_service_health,
      ServiceHealth.record_failure]
    split_ifs <;> simp
  · simp [GracefulDegradation.record_success, get_service_health,
      ServiceHealth.record_success]

/-- Witness for C8: a fresh controller is HEALTHY, so should_use_fallback
is false; the characterization evaluates at a concrete state and time. -/
theorem should_use_fallback_characterization_witness :
    (should_use_fallback GracefulDegradation.start "ocr" 10 = true ↔
      ((get_service_health GracefulDegradation.start "ocr").status =
          ServiceStatus.unavailable ∧
        10 - (get_service_health GracefulDegradation.start "ocr").last_failure_time <
          (get_service_health GracefulDegradation.start "ocr").recovery_timeout)) ∧
    (get_service_health (GracefulDegradation.start.record_failure "ocr" 3) "ocr").last_failure_time = 3 ∧
    (get_service_health (GracefulDegradation.start.record_success "ocr" 3) "ocr").status =
      ServiceStatus.healthy :=
  should_use_fallback_characterization GracefulDegradation.start "ocr" 10 3

/-! ### MemoryPool (app/core/performance/memory_pool.py)

A BytesIO buffer is observed through its stream position and its length;
seek(0) / truncate(0) reset both to zero.  The _pool list of buffer objects
is modeled by value: the buffer handed to the acquirer is tracked in the
session's in-use list while it is outside the free-list, and written back
(reset) on release, which is equivalent to Python's aliasing because a
pooled buffer's index is never in _available while it is in use. -/

structure PoolBuffer where
  pos : Nat
  len : Nat
deriving DecidableEq, Repr

/-- A freshly constructed io.BytesIO() — and equally a buffer after
seek(0); truncate(0). -/
def emptyBuffer : PoolBuffer := { pos := 0, len := 0 }

structure MemoryPool where
  buffer_size : Nat
  pool_size : Nat
  pool : List PoolBuffer
  available : List Nat
  total_acquired : Nat
  total_fallbacks : Nat
deriving DecidableEq, Repr

/-- __init__ (lines 32-74): each preallocated buffer is written full, then
seek(0) / truncate(0) — so it starts at position 0 with length 0 — and its
index is pushed on the free-list. -/
def mkMemoryPool (buffer_size pool_size : Nat) : MemoryPool :=
  { buffer_size := buffer_size
    pool_size := pool_size
    pool := List.replicate pool_size emptyBuffer
    available := List.range pool_size
    total_acquired := 0
    total_fallbacks := 0 }

/-- The entry half of acquire (lines 91-105): pop an index off the end of
_available and hand out that pooled buffer, or, when the free-list is
empty, hand out a fresh unpooled buffer.  Returns the buffer handed out,
its pool index (none for an overflow buffer), and the updated pool. -/
def acquireStep (p : MemoryPool) : PoolBuffer × Option Nat × MemoryPool :=
  match p.available.getLast? with
  | some idx =>
      (p.pool.getD idx emptyBuffer, some idx,
        { p with available := p.available.dropLast,
                 total_acquired := p.total_acquired + 1 })
  | none =>
      (emptyBuffer, none,
        { p with total_fallbacks := p.total_fallbacks + 1 })

/-- The finally block of acquire (lines 107-117), which runs on every exit
path including exceptions: the buffer is reset (seek(0); truncate(0)) and
its index is appended to _available only when it is a pooled buffer;
overflow buffers are discarded. -/
def releaseStep (p : MemoryPool) (idx : Option Nat) : MemoryPool :=
  match idx with
  | some i =>
      { p with pool := p.pool.set i emptyBuffer,
               available := p.available ++ [i] }
  | none => p

/-- A pool together with the buffers currently held by acquirers (each
with its pool index, none for overflow buffers). -/
structure PoolSession where
  mp : MemoryPool
  in_use : List (Option Nat × PoolBuffer)

inductive PoolOp where
  | acquireOp
  | writeOp (j : Nat) (pos len : Nat)
  | releaseOp (j : Nat)

/-- One step of a pool session: an acquire, an arbitrary mutation of an
outstanding buffer by its holder (a body that raises simply performs fewer
of these), or a release of an outstanding buffer. -/
def poolStep (s : PoolSession) : PoolOp → PoolSession
  | PoolOp.acquireOp =>
      { mp := (acquireStep s.mp).2.2,
        in_use := s.in_use ++ [((acquireStep s.mp).2.1, (acquireStep s.mp).1)] }
  | PoolOp.writeOp j pos len =>
      match s.in_use[j]? with
      | some e => { s with in_use := s.in_use.set j (e.1, { pos := pos, len := len }) }
      | none => s
  | PoolOp.releaseOp j =>
      match s.in_use[j]? with
      | some e => { mp := releaseStep s.mp e.1, in_use := s.in_use.eraseIdx j }
      | none => s

def runPool (s : PoolSession) : List PoolOp → PoolSession
  | [] => s
  | op :: ops => runPool (poolStep s op) ops

def startPool (buffer_size pool_size : Nat) : PoolSession :=
  { mp := mkMemoryPool buffer_size pool_size, in_use := [] }

/-- The session invariant: the pool keeps its preallocated length, every
free-listed buffer is reset, and every outstanding pooled index is a real
pool index. -/
def PoolInv (ps : Nat) (s : PoolSession) : Prop :=
  s.mp.pool.length = ps ∧
  (∀ i ∈ s.mp.available, s.mp.pool[i]? = some emptyBuffer) ∧
  (∀ e ∈ s.in_use, ∀ i, e.1 = some i → i < ps)

theorem mem_of_getLast? {α : Type} {l : List α} {a : α} (h : l.getLast? = some a) :
    a ∈ l := by
  rw [List.getLast?_eq_getElem?] at h
  exact List.getElem?_mem h

theorem poolStep_inv (ps : Nat) (s : PoolSession) (op : PoolOp)
    (h : PoolInv ps s) : PoolInv ps (poolStep s op) := by
  obtain ⟨hlen, havail, huse⟩ := h
  cases op with
  | acquireOp =>
      cases hl : s.mp.available.getLast? with
      | none =>
          simp only [PoolInv, poolStep, acquireStep, hl]
          refine ⟨hlen, havail, ?_⟩
          intro e he i hei
          simp only [List.mem_append, List.mem_singleton] at he
          rcases he with he | he
          · exact huse e he i hei
          · rw [he] at hei
            exact absurd hei (by simp)
      | some idx =>
          have hidxmem : idx ∈ s.mp.available := mem_of_getLast? hl
          have hidx : s.mp.pool[idx]? = some emptyBuffer := havail idx hidxmem
          have hidxlt : idx < ps := by
            by_contra hge
            rw [List.getElem?_eq_none (by omega : s.mp.pool.length ≤ idx)] at hidx
            exact absurd hidx (by simp)
          simp only [PoolInv, poolStep, acquireStep, hl]
          refine ⟨hlen, ?_, ?_⟩
          · intro i hi
            exact havail i ((List.dropLast_sublist s.mp.available).subset hi)
          · intro e he i hei
            simp only [List.mem_append, List.mem_singleton] at he
            rcases he with he | he
            · exact huse e he i hei
            · rw [he] at hei
              simp only [Option.some.injEq] at hei
              omega
  | writeOp j pos len =>
      cases hj : s.in_use[j]? with
      | none =>
          simp only [PoolInv, poolStep, hj]
          exact ⟨hlen, havail, huse⟩
      | some e =>
          simp only [PoolInv, poolStep, hj]
          refine ⟨hlen, havail, ?_⟩
          intro e' he' i hei
          rcases List.mem_or_eq_of_mem_set he' with he' | he'
          · exact huse e' he' i hei
          · rw [he'] at hei
            exact huse e (List.getElem?_mem hj) i hei
  | releaseOp j =>
      cases hj : s.in_use[j]? with
      | none =>
          simp only [PoolInv, poolStep, hj]
          exact ⟨hlen, havail, huse⟩
      | some e =>
          have hmem : e ∈ s.in_use := List.getElem?_mem hj
          have huse' : ∀ e' ∈ s.in_use.eraseIdx j, ∀ i, e'.1 = some i → i < ps := by
            intro e' he' i hei
            exact huse e' ((List.eraseIdx_sublist s.in_use j).subset he') i hei
          cases he1 : e.1 with
          | none =>
              simp only [PoolInv, poolStep, hj, releaseStep, he1]
              exact ⟨hlen, havail, huse'⟩
          | some i =>
              have hilt : i < ps := huse e hmem i he1
              simp only [PoolInv, poolStep, hj, releaseStep, he1]
              refine ⟨by rw [List.length_set]; exact hlen, ?_, huse'⟩
              intro k hk
              simp only [List.mem_append, List.mem_singleton] at hk
              by_cases hki : k = i
              · rw [hki]
                exact List.getElem?_set_self (by omega)
              · rw [List.getElem?_set_ne (fun hh => hki hh.symm)]
                rcases hk with hk | hk
                · exact havail k hk
                · exact absurd hk hki

theorem runPool_inv (ps : Nat) : ∀ (ops : List PoolOp) (s : PoolSession),
    PoolInv ps s → PoolInv ps (runPool s ops) := by
  intro ops
  induction ops with
  | nil => intro s h; exact h
  | cons op ops ih => intro s h; exact ih _ (poolStep_inv ps s op h)

theorem startPool_inv (bs ps : Nat) : PoolInv ps (startPool bs ps) := by
  simp only [PoolInv, startPool, mkMemoryPool]
  refine ⟨List.length_replicate ps emptyBuffer, ?_, ?_⟩
  · intro i hi
    rw [List.getElem?_replicate, if_pos (List.mem_range.mp hi)]
  · intro e he
    exact absurd he (List.not_mem_nil e)

/-- C9: along every trace of acquire / holder-mutation / release steps from
a fresh pool, the free-list only ever holds indices of the pool's
preallocated buffers, every free-listed buffer (hence every buffer a
subsequent acquire hands out, pooled or overflow) has position and length
zero, and when the pool is exhausted acquire still yields a usable fresh
buffer marked as unpooled (so it is never added to the free-list on
release). -/
theorem memory_pool_invariants (bs ps : Nat) (ops : List PoolOp) :
    ((runPool (startPool bs ps) ops).mp.pool.length = ps ∧
      (∀ i ∈ (runPool (startPool bs ps) ops).mp.available, i < ps) ∧
      (∀ i ∈ (runPool (startPool bs ps) ops).mp.available,
        (runPool (startPool bs ps) ops).mp.pool[i]? = some emptyBuffer)) ∧
    (acquireStep (runPool (startPool bs ps) ops).mp).1 = emptyBuffer ∧
    ((runPool (startPool bs ps) ops).mp.available = [] →
      (acquireStep (runPool (startPool bs ps) ops).mp).2.1 = none) := by
  obtain ⟨hlen, havail, _⟩ := runPool_inv ps ops (startPool bs ps) (startPool_inv bs ps)
  have hbound : ∀ i ∈ (runPool (startPool bs ps) ops).mp.available, i < ps := by
    intro i hi
    by_contra hge
    have := havail i hi
    rw [List.getElem?_eq_none (by omega : (runPool (startPool bs ps) ops).mp.pool.length ≤ i)]
      at this
    exact absurd this (by simp)
  refine ⟨⟨hlen, hbound, havail⟩, ?_, ?_⟩
  · cases hl : (runPool (startPool bs ps) ops).mp.available.getLast? with
    | none => simp [acquireStep, hl]
    | some idx =>
        have hidx := havail idx (mem_of_getLast? hl)
        simp [acquireStep, hl, List.getD_eq_getElem?_getD, hidx]
  · intro hemp
    simp [acquireStep, hemp]

/-- Witness for C9: a concrete session — two acquires drain a two-buffer
pool, a third overflows, the holder writes into its buffer, and releases
return reset buffers — evaluated through the theorem. -/
theorem memory_pool_invariants_witness :
    (acquireStep (runPool (startPool 8 2)
        [PoolOp.acquireOp, PoolOp.writeOp 0 5 7, PoolOp.acquireOp, PoolOp.acquireOp,
          PoolOp.releaseOp 0, PoolOp.releaseOp 0, PoolOp.releaseOp 0]).mp).1 = emptyBuffer ∧
    (runPool (startPool 8 2)
        [PoolOp.acquireOp, PoolOp.writeOp 0 5 7, PoolOp.acquireOp, PoolOp.acquireOp,
          PoolOp.releaseOp 0, PoolOp.releaseOp 0, PoolOp.releaseOp 0]).mp.pool.length = 2 :=
  ⟨(memory_pool_invariants 8 2
      [PoolOp.acquireOp, PoolOp.writeOp 0 5 7, PoolOp.acquireOp, PoolOp.acquireOp,
        PoolOp.releaseOp 0, PoolOp.releaseOp 0, PoolOp.releaseOp 0]).2.1,
    (memory_pool_invariants 8 2
      [PoolOp.acquireOp, PoolOp.writeOp 0 5 7, PoolOp.acquireOp, PoolOp.acquireOp,
        PoolOp.releaseOp 0, PoolOp.releaseOp 0, PoolOp.releaseOp 0]).1.1⟩

/-! ### DynamicBatcher (app/core/performance/batcher.py)

An asyncio.Future result slot is one cell of the slots list: none while
pending, some (Except.ok r) after set_result, some (Except.error e) after
set_exception.  add appends the item to the queue and creates its future
(the new slot index identifies the caller).  _process_batch is one flush:
scheduling (the size trigger in add, the max_wait_ms timer, and the
follow-up task in the finally block) only determines WHEN flushes run, so
traces interleave add steps with flush steps; a flush finding an empty
queue (or a flush already running) returns immediately.  The awaited
process_fn call is modeled as a function returning either a result list or
a raised exception. -/

inductive BatchError where
  | fromProcess (msg : String)
  | lengthMismatch (results inputs : Nat)
deriving DecidableEq, Repr

structure BatchItem (T : Type) where
  data : T
  slot : Nat
  request_id : String
deriving DecidableEq, Repr

structure DynamicBatcher (T R : Type) where
  max_batch_size : Nat
  queue : List (BatchItem T)
  slots : List (Option (Except BatchError R))
  is_processing : Bool
deriving Repr

/-- __init__ (lines 48-72): empty queue, no futures yet, not processing. -/
def emptyBatcher (T R : Type) (max_batch_size : Nat) : DynamicBatcher T R :=
  { max_batch_size := max_batch_size, queue := [], slots := [], is_processing := false }

/-- add (lines 81-112): create the item with a fresh future and append it
to the queue; returns the slot the caller awaits. -/
def add {T R : Type} (b : DynamicBatcher T R) (data : T) (request_id : String) :
    DynamicBatcher T R × Nat :=
  ({ b with
      queue := b.queue ++ [{ data := data, slot := b.slots.length, request_id := request_id }],
      slots := b.slots ++ [none] },
    b.slots.length)

/-- future.set_result / set_exception guarded by "if not item.future.done()"
(lines 155 and 172): only a pending slot is written. -/
def setSlot {R : Type} (slots : List (Option (Except BatchError R))) (i : Nat)
    (v : Except BatchError R) : List (Option (Except BatchError R)) :=
  match slots[i]? with
  | some none => slots.set i (some v)
  | _ => slots

def resolveMany {R : Type} (slots : List (Option (Except BatchError R)))
    (pairs : List (Nat × Except BatchError R)) : List (Option (Except BatchError R)) :=
  pairs.foldl (fun acc pr => setSlot acc pr.1 pr.2) slots

/-- _process_batch (lines 119-180): if the queue is empty or a flush is
already running, return; otherwise dequeue up to max_batch_size items from
the head, call process_fn on their payloads in order, and distribute
results positionally — a result/input count mismatch (the ValueError of
line 150) or a raised exception resolves every dequeued future with that
same error.  The first component records the invoked input batch (none
when process_fn was not invoked). -/
def processBatch {T R : Type} (process : List T → Except String (List R))
    (b : DynamicBatcher T R) : Option (List T) × DynamicBatcher T R :=
  if b.queue.isEmpty || b.is_processing then (none, b)
  else
    let batch := b.queue.take (min b.queue.length b.max_batch_size)
    let b1 := { b with queue := b.queue.drop (min b.queue.length b.max_batch_size) }
    let inputs := batch.map (fun it => it.data)
    match process inputs with
    | Except.ok results =>
        if results.length = batch.length then
          let pairs := (batch.zip results).map
            (fun pr => (pr.1.slot, (Except.ok pr.2 : Except BatchError R)))
          (some inputs, { b1 with slots := resolveMany b1.slots pairs })
        else
          let pairs := batch.map (fun it =>
            (it.slot,
              (Except.error (BatchError.lengthMismatch results.length batch.length) :
                Except BatchError R)))
          (some inputs, { b1 with slots := resolveMany b1.slots pairs })
    | Except.error e =>
        let pairs := batch.map
          (fun it => (it.slot, (Except.error (BatchError.fromProcess e) : Except BatchError R)))
        (some inputs, { b1 with slots := resolveMany b1.slots pairs })

/-- k successive flush attempts (size trigger, timer, follow-up tasks),
collecting the input batches process_fn is invoked on. -/
def flushN {T R : Type} (process : List T → Except String (List R)) :
    Nat → DynamicBatcher T R → List (List T) × DynamicBatcher T R
  | 0, b => ([], b)
  | Nat.succ k, b =>
      ((processBatch process b).1.toList ++ (flushN process k (processBatch process b).2).1,
        (flushN process k (processBatch process b).2).2)

/-- A burst of add calls (all arriving before any flush fires). -/
def addAll {T R : Type} (b : DynamicBatcher T R) : List T → DynamicBatcher T R
  | [] => b
  | d :: ds => addAll (add b d "-").1 ds

/-- The queue a burst of adds builds: items paired with consecutive slot
indices starting at k. -/
def itemsFrom {T : Type} (k : Nat) : List T → List (BatchItem T)
  | [] => []
  | d :: ds => { data := d, slot := k, request_id := "-" } :: itemsFrom (k + 1) ds

/-- Values paired with consecutive indices starting at k. -/
def enumFrom {V : Type} (k : Nat) : List V → List (Nat × V)
  | [] => []
  | v :: vs => (k, v) :: enumFrom (k + 1) vs

theorem itemsFrom_length {T : Type} : ∀ (k : Nat) (ds : List T),
    (itemsFrom k ds).length = ds.length := by
  intro k ds
  induction ds generalizing k with
  | nil => rfl
  | cons d ds ih => simp [itemsFrom, ih]

theorem itemsFrom_map_data {T : Type} : ∀ (k : Nat) (ds : List T),
    (itemsFrom k ds).map (fun it => it.data) = ds := by
  intro k ds
  induction ds generalizing k with
  | nil => rfl
  | cons d ds ih => simp [itemsFrom, ih]

theorem addAll_eq {T R : Type} : ∀ (ds : List T) (b : DynamicBatcher T R),
    addAll b ds =
      { b with queue := b.queue ++ itemsFrom b.slots.length ds,
               slots := b.slots ++ List.replicate ds.length none } := by
  intro ds
  induction ds with
  | nil => intro b; simp [addAll, itemsFrom]
  | cons d ds ih =>
      intro b
      rw [addAll, ih]
      simp only [add, List.length_append, List.length_singleton, List.length_cons]
      refine congrArg₂ (fun q s => DynamicBatcher.mk b.max_batch_size q s b.is_processing) ?_ ?_
      · rw [List.append_assoc]
        rfl
      · rw [List.append_assoc]
        rfl

theorem zip_itemsFrom {T R : Type} : ∀ (ds : List T) (rs : List R) (k : Nat),
    ds.length = rs.length →
    ((itemsFrom k ds).zip rs).map
        (fun pr => (pr.1.slot, (Except.ok pr.2 : Except BatchError R))) =
      enumFrom k (rs.map (fun r => (Except.ok r : Except BatchError R))) := by
  intro ds
  induction ds with
  | nil =>
      intro rs k h
      cases rs with
      | nil => rfl
      | cons r rs => simp at h
  | cons d ds ih =>
      intro rs k h
      cases rs with
      | nil => simp at h
      | cons r rs =>
          simp only [List.length_cons] at h
          simp only [itemsFrom, List.zip_cons_cons, List.map_cons, enumFrom]
          exact congrArg _ (ih rs (k + 1) (by omega))

theorem map_itemsFrom_const {T R : Type} (e : Except BatchError R) : ∀ (ds : List T) (k : Nat),
    (itemsFrom k ds).map (fun it => (it.slot, e)) = enumFrom k (List.replicate ds.length e) := by
  intro ds
  induction ds with
  | nil => intro k; rfl
  | cons d ds ih =>
      intro k
      simp only [itemsFrom, List.map_cons, List.length_cons, List.replicate_succ, enumFrom]
      exact congrArg _ (ih (k + 1))

theorem getElem?_append_length {α : Type} (l1 l2 : List α) :
    (l1 ++ l2)[l1.length]? = l2[0]? := by
  rw [List.getElem?_append_right (le_refl _)]
  simp

theorem set_append_length {α : Type} : ∀ (l1 : List α) (l2 : List α) (x y : α),
    (l1 ++ x :: l2).set l1.length y = l1 ++ y :: l2 := by
  intro l1
  induction l1 with
  | nil => intro l2 x y; rfl
  | cons a l1 ih => intro l2 x y; simp [List.set, ih]

theorem setSlot_of_pending {R : Type} (slots : List (Option (Except BatchError R))) (i : Nat)
    (v : Except BatchError R) (h : slots[i]? = some none) :
    setSlot slots i v = slots.set i (some v) := by
  unfold setSlot
  rw [h]

theorem resolveMany_enumFrom {R : Type} :
    ∀ (vs : List (Except BatchError R)) (done : List (Option (Except BatchError R))),
    resolveMany (done ++ List.replicate vs.length none) (enumFrom done.length vs) =
      done ++ vs.map some := by
  intro vs
  induction vs with
  | nil => intro done; simp [resolveMany, enumFrom]
  | cons v vs ih =>
      intro done
      have hget : (done ++ none :: List.replicate vs.length none)[done.length]? =
          some none := by
        rw [getElem?_append_length]
        simp
      have hstep : setSlot (done ++ none :: List.replicate vs.length none) done.length v =
          done ++ some v :: List.replicate vs.length none := by
        rw [setSlot_of_pending _ _ _ hget]
        exact set_append_length done _ none (some v)
      simp only [enumFrom, List.length_cons, List.replicate_succ, resolveMany,
        List.foldl_cons] at *
      rw [hstep]
      have h1 : done ++ some v :: List.replicate vs.length none =
          (done ++ [some v]) ++ List.replicate vs.length none := by
        rw [List.append_assoc]
        rfl
      have h2 : done.length + 1 = (done ++ [some v]).length := by simp
      rw [h1, h2, ih (done ++ [some v])]
      simp

theorem flushN_empty {T R : Type} (process : List T → Except String (List R)) :
    ∀ (k : Nat) (b : DynamicBatcher T R), b.queue = [] → flushN process k b = ([], b) := by
  intro k
  induction k with
  | zero => intro b h; rfl
  | succ k ih =>
      intro b h
      have hp : processBatch process b = (none, b) := by
        simp [processBatch, h]
      simp [flushN, hp, ih b h]

/-- C1: a burst of n payloads (1 ≤ n ≤ max_batch_size) all enqueued before
any flush fires — the within-max_wait_ms hypothesis — followed by any
positive number of flush attempts (the size trigger, the timer, follow-up
tasks): process_fn is invoked exactly once, on the payload list in arrival
order, and the i-th caller's slot resolves to the i-th element of the
returned result list. -/
theorem batcher_single_flush (T R : Type) (m : Nat)
    (process : List T → Except String (List R)) (ps : List T) (rs : List R) (k : Nat)
    (hne : ps ≠ []) (hle : ps.length ≤ m) (hk : 0 < k)
    (hok : process ps = Except.ok rs) (hlen : rs.length = ps.length) :
    flushN process k (addAll (emptyBatcher T R m) ps) =
      ([ps],
        { max_batch_size := m, queue := [],
          slots := rs.map (fun r => some (Except.ok r)), is_processing := false }) := by
  have hB0 : addAll (emptyBatcher T R m) ps =
      { max_batch_size := m, queue := itemsFrom 0 ps,
        slots := List.replicate ps.length none, is_processing := false } := by
    rw [addAll_eq]
    simp [emptyBatcher]
  have hqlen : (itemsFrom 0 ps).length = ps.length := itemsFrom_length 0 ps
  have hmin : min (itemsFrom 0 ps).length m = (itemsFrom 0 ps).length := by
    rw [hqlen]; omega
  have hemp : (itemsFrom 0 ps).isEmpty = false := by
    cases ps with
    | nil => exact absurd rfl hne
    | cons d ds => rfl
  have hpairs :
      ((itemsFrom 0 ps).zip rs).map
          (fun pr => (pr.1.slot, (Except.ok pr.2 : Except BatchError R))) =
        enumFrom 0 (rs.map (fun r => (Except.ok r : Except BatchError R))) :=
    zip_itemsFrom ps rs 0 hlen.symm
  have hres : resolveMany (List.replicate ps.length none)
      (enumFrom 0 (rs.map (fun r => (Except.ok r : Except BatchError R)))) =
        rs.map (fun r => some (Except.ok r)) := by
    have h := resolveMany_enumFrom (rs.map (fun r => (Except.ok r : Except BatchError R))) []
    simpa [hlen] using h
  have hflush : processBatch process (addAll (emptyBatcher T R m) ps) =
      (some ps,
        { max_batch_size := m, queue := [],
          slots := rs.map (fun r => some (Except.ok r)), is_processing := false }) := by
    rw [hB0]
    unfold processBatch
    dsimp only
    rw [hemp]
    simp only [Bool.or_self, Bool.false_eq_true, if_false]
    rw [hmin, List.take_length, List.drop_length, itemsFrom_map_data, hok]
    dsimp only
    rw [hqlen, if_pos hlen, hpairs, hres]
  obtain ⟨k', rfl⟩ : ∃ k', k = k' + 1 := ⟨k - 1, by omega⟩
  simp [flushN, hflush, flushN_empty]

/-- Witness for C1: three payloads through an increment-each batch
processor and two flush attempts — one invocation, positional results. -/
theorem batcher_single_flush_witness :
    flushN (fun l => Except.ok (l.map (fun x => x + 1))) 2
        (addAll (emptyBatcher Nat Nat 8) [10, 20, 30]) =
      ([[10, 20, 30]],
        { max_batch_size := 8, queue := [],
          slots := [11, 21, 31].map (fun r => some (Except.ok r)),
          is_processing := false }) :=
  batcher_single_flush Nat Nat 8 (fun l => Except.ok (l.map (fun x => x + 1)))
    [10, 20, 30] [11, 21, 31] 2 (by simp) (by simp) (by simp) rfl rfl

theorem resolveMany_cons {R : Type} (slots : List (Option (Except BatchError R)))
    (p : Nat × Except BatchError R) (pairs : List (Nat × Except BatchError R)) :
    resolveMany slots (p :: pairs) = resolveMany (setSlot slots p.1 p.2) pairs := rfl

theorem setSlot_ne {R : Type} (slots : List (Option (Except BatchError R))) (i j : Nat)
    (v : Except BatchError R) (h : j ≠ i) :
    (setSlot slots i v)[j]? = slots[j]? := by
  unfold setSlot
  split
  · exact List.getElem?_set_ne (fun hh => h hh.symm)
  · rfl

theorem setSlot_pres_some {R : Type} (slots : List (Option (Except BatchError R))) (i j : Nat)
    (v w : Except BatchError R) (h : slots[j]? = some (some w)) :
    (setSlot slots i v)[j]? = some (some w) := by
  by_cases hij : j = i
  · subst hij
    unfold setSlot
    rw [h]
    exact h
  · rw [setSlot_ne slots i j v hij]
    exact h

theorem resolveMany_pres_ne {R : Type} :
    ∀ (pairs : List (Nat × Except BatchError R)) (slots : List (Option (Except BatchError R)))
      (j : Nat), j ∉ pairs.map Prod.fst → (resolveMany slots pairs)[j]? = slots[j]? := by
  intro pairs
  induction pairs with
  | nil => intro slots j _; rfl
  | cons p pairs ih =>
      intro slots j hj
      simp only [List.map_cons, List.mem_cons, not_or] at hj
      rw [resolveMany_cons, ih (setSlot slots p.1 p.2) j hj.2]
      exact setSlot_ne slots p.1 j p.2 hj.1

theorem resolveMany_pres_some {R : Type} :
    ∀ (pairs : List (Nat × Except BatchError R)) (slots : List (Option (Except BatchError R)))
      (j : Nat) (w : Except BatchError R),
    slots[j]? = some (some w) → (resolveMany slots pairs)[j]? = some (some w) := by
  intro pairs
  induction pairs with
  | nil => intro slots j w h; exact h
  | cons p pairs ih =>
      intro slots j w h
      rw [resolveMany_cons]
      exact ih _ j w (setSlot_pres_some slots p.1 j p.2 w h)

theorem resolveMany_sets {R : Type} :
    ∀ (pairs : List (Nat × Except BatchError R)) (slots : List (Option (Except BatchError R))),
    (pairs.map Prod.fst).Nodup →
    (∀ pr ∈ pairs, slots[pr.1]? = some none) →
    ∀ pr ∈ pairs, (resolveMany slots pairs)[pr.1]? = some (some pr.2) := by
  intro pairs
  induction pairs with
  | nil => intro slots _ _ pr hpr; exact absurd hpr (List.not_mem_nil pr)
  | cons p pairs ih =>
      intro slots hnd hinit pr hpr
      have hp : slots[p.1]? = some none := hinit p (List.mem_cons_self p pairs)
      have hplt : p.1 < slots.length := by
        by_contra hge
        rw [List.getElem?_eq_none (by omega)] at hp
        exact absurd hp (by simp)
      have hset : setSlot slots p.1 p.2 = slots.set p.1 (some p.2) :=
        setSlot_of_pending slots p.1 p.2 hp
      simp only [List.map_cons, List.nodup_cons] at hnd
      rw [resolveMany_cons]
      rcases List.mem_cons.mp hpr with rfl | hpr'
      · rw [resolveMany_pres_ne pairs _ pr.1 hnd.1, hset, List.getElem?_set_self hplt]
      · refine ih (setSlot slots p.1 p.2) hnd.2 ?_ pr hpr'
        intro pr' hpr''
        have hne : pr'.1 ≠ p.1 := by
          intro he
          exact hnd.1 (he ▸ List.mem_map_of_mem Prod.fst hpr'')
        rw [setSlot_ne slots p.1 pr'.1 p.2 hne]
        exact hinit pr' (List.mem_cons_of_mem p hpr'')

/-! C3 machinery: the invariant maintained along every add / flush trace —
every queued item's future is pending, queued items hold pairwise distinct
futures, and no flush is marked running between steps. -/

def BatcherInv {T R : Type} (b : DynamicBatcher T R) : Prop :=
  (∀ it ∈ b.queue, b.slots[it.slot]? = some none) ∧
  (b.queue.map (fun it => it.slot)).Nodup ∧
  b.is_processing = false

inductive BatchOp (T : Type) where
  | addOp (data : T) (request_id : String)
  | flushOp

def batchStep {T R : Type} (process : List T → Except String (List R))
    (b : DynamicBatcher T R) : BatchOp T → DynamicBatcher T R
  | BatchOp.addOp d rid => (add b d rid).1
  | BatchOp.flushOp => (processBatch process b).2

def runBatcher {T R : Type} (process : List T → Except String (List R))
    (b : DynamicBatcher T R) : List (BatchOp T) → DynamicBatcher T R
  | [] => b
  | op :: ops => runBatcher process (batchStep process b op) ops

theorem queue_slot_lt {T R : Type} (b : DynamicBatcher T R)
    (hslots : ∀ it ∈ b.queue, b.slots[it.slot]? = some none) :
    ∀ it ∈ b.queue, it.slot < b.slots.length := by
  intro it hit
  by_contra hge
  have h := hslots it hit
  rw [List.getElem?_eq_none (by omega)] at h
  exact absurd h (by simp)

theorem add_inv {T R : Type} (b : DynamicBatcher T R) (d : T) (rid : String)
    (h : BatcherInv b) : BatcherInv (add b d rid).1 := by
  obtain ⟨hslots, hnd, hproc⟩ := h
  have hbound := queue_slot_lt b hslots
  refine ⟨?_, ?_, hproc⟩
  · intro it hit
    simp only [add, List.mem_append, List.mem_singleton] at hit
    rcases hit with hit | rfl
    · show (b.slots ++ [none])[it.slot]? = some none
      rw [List.getElem?_append_left (hbound it hit)]
      exact hslots it hit
    · show (b.slots ++ [none])[b.slots.length]? = some none
      rw [getElem?_append_length]
      rfl
  · show ((b.queue ++ [({ data := d, slot := b.slots.length, request_id := rid } : BatchItem T)]).map
      (fun it => it.slot)).Nodup
    rw [List.map_append, List.nodup_append]
    refine ⟨hnd, List.nodup_singleton _, ?_⟩
    intro x hx hx2
    simp only [List.map_cons, List.map_nil, List.mem_singleton] at hx2
    obtain ⟨it, hit, rfl⟩ := List.mem_map.mp hx
    have := hbound it hit
    omega

/-- The shape of a non-trivial flush: the head batch is dequeued, process
is invoked on its payloads, and some pair list whose first components are
exactly the batch's slots (each batch member contributing one pair) is
folded into the slot table. -/
theorem processBatch_spec {T R : Type} (process : List T → Except String (List R))
    (b : DynamicBatcher T R) (hq : b.queue ≠ []) (hp : b.is_processing = false) :
    ∃ pairs : List (Nat × Except BatchError R),
      processBatch process b =
        (some ((b.queue.take (min b.queue.length b.max_batch_size)).map (fun it => it.data)),
          { b with queue := b.queue.drop (min b.queue.length b.max_batch_size),
                   slots := resolveMany b.slots pairs }) ∧
      pairs.map Prod.fst =
        (b.queue.take (min b.queue.length b.max_batch_size)).map (fun it => it.slot) ∧
      (∀ it ∈ b.queue.take (min b.queue.length b.max_batch_size),
        ∃ v, (it.slot, v) ∈ pairs) := by
  have hemp : b.queue.isEmpty = false := List.isEmpty_eq_false.mpr hq
  cases hpr : process ((b.queue.take (min b.queue.length b.max_batch_size)).map
      (fun it => it.data)) with
  | ok results =>
      by_cases hl : results.length =
          (b.queue.take (min b.queue.length b.max_batch_size)).length
      · refine ⟨((b.queue.take (min b.queue.length b.max_batch_size)).zip results).map
          (fun pr => (pr.1.slot, (Except.ok pr.2 : Except BatchError R))), ?_, ?_, ?_⟩
        · unfold processBatch
          rw [hemp, hp]
          simp only [Bool.or_self, Bool.false_eq_true, if_false]
          rw [hpr]
          dsimp only
          rw [if_pos hl]
        · rw [List.map_map]
          rw [show (Prod.fst ∘ fun pr : BatchItem T × R =>
              (pr.1.slot, (Except.ok pr.2 : Except BatchError R))) =
            ((fun it : BatchItem T => it.slot) ∘ Prod.fst) from rfl]
          rw [← List.map_map]
          rw [List.map_fst_zip _ results (by omega)]
        · intro it hit
          obtain ⟨j, hj, rfl⟩ := List.mem_iff_getElem.mp hit
          have hjz : j < ((b.queue.take (min b.queue.length b.max_batch_size)).zip
              results).length := by
            rw [List.length_zip, hl, Nat.min_self]
            exact hj
          refine ⟨Except.ok (results.get ⟨j, by omega⟩), ?_⟩
          have hz := @List.getElem_zip _ _ (b.queue.take (min b.queue.length b.max_batch_size))
            results j hjz
          have hmem := List.mem_map_of_mem
            (fun pr : BatchItem T × R => (pr.1.slot, (Except.ok pr.2 : Except BatchError R)))
            (List.getElem_mem hjz)
          rw [hz] at hmem
          exact hmem
      · refine ⟨(b.queue.take (min b.queue.length b.max_batch_size)).map (fun it =>
          (it.slot, (Except.error (BatchError.lengthMismatch results.length
            ((b.queue.take (min b.queue.length b.max_batch_size)).length)) :
              Except BatchError R))), ?_, ?_, ?_⟩
        · unfold processBatch
          rw [hemp, hp]
          simp only [Bool.or_self, Bool.false_eq_true, if_false]
          rw [hpr]
          dsimp only
          rw [if_neg hl]
        · rw [List.map_map]
          rfl
        · intro it hit
          exact ⟨_, List.mem_map_of_mem _ hit⟩
  | error e =>
      refine ⟨(b.queue.take (min b.queue.length b.max_batch_size)).map (fun it =>
        (it.slot, (Except.error (BatchError.fromProcess e) : Except BatchError R))), ?_, ?_, ?_⟩
      · unfold processBatch
        rw [hemp, hp]
        simp only [Bool.or_self, Bool.false_eq_true, if_false]
        rw [hpr]
      · rw [List.map_map]
        rfl
      · intro it hit
        exact ⟨_, List.mem_map_of_mem _ hit⟩

theorem processBatch_empty {T R : Type} (process : List T → Except String (List R))
    (b : DynamicBatcher T R) (hq : b.queue = []) :
    processBatch process b = (none, b) := by
  simp [processBatch, hq]

theorem processBatch_inv {T R : Type} (process : List T → Except String (List R))
    (b : DynamicBatcher T R) (h : BatcherInv b) : BatcherInv (processBatch process b).2 := by
  by_cases hq : b.queue = []
  · rw [processBatch_empty process b hq]
    exact h
  · obtain ⟨hslots, hnd, hproc⟩ := h
    obtain ⟨pairs, heq, hfst, hmem⟩ := processBatch_spec process b hq hproc
    rw [heq]
    refine ⟨?_, ?_, hproc⟩
    · intro it hit
      have hit' : it ∈ b.queue := List.drop_subset _ _ hit
      have hnotin : it.slot ∉ pairs.map Prod.fst := by
        rw [hfst]
        intro hin
        rw [List.map_take] at hin
        have hin2 : it.slot ∈ (b.queue.map (fun i => i.slot)).drop
            (min b.queue.length b.max_batch_size) := by
          rw [← List.map_drop]
          exact List.mem_map_of_mem _ hit
        have hsplit := hnd
        rw [← List.take_append_drop (min b.queue.length b.max_batch_size)
          (b.queue.map (fun i => i.slot))] at hsplit
        exact (List.nodup_append.mp hsplit).2.2 hin hin2
      show (resolveMany b.slots pairs)[it.slot]? = some none
      rw [resolveMany_pres_ne pairs b.slots it.slot hnotin]
      exact hslots it hit'
    · show (((b.queue.drop (min b.queue.length b.max_batch_size))).map
        (fun it => it.slot)).Nodup
      rw [List.map_drop]
      exact List.Nodup.sublist (List.drop_sublist _ _) hnd

theorem batchStep_inv {T R : Type} (process : List T → Except String (List R))
    (b : DynamicBatcher T R) (op : BatchOp T) (h : BatcherInv b) :
    BatcherInv (batchStep process b op) := by
  cases op with
  | addOp d rid => exact add_inv b d rid h
  | flushOp => exact processBatch_inv process b h

theorem runBatcher_inv {T R : Type} (process : List T → Except String (List R)) :
    ∀ (ops : List (BatchOp T)) (b : DynamicBatcher T R),
    BatcherInv b → BatcherInv (runBatcher process b ops) := by
  intro ops
  induction ops with
  | nil => intro b h; exact h
  | cons op ops ih => intro b h; exact ih _ (batchStep_inv process b op h)

theorem emptyBatcher_inv (T R : Type) (m : Nat) : BatcherInv (emptyBatcher T R m) :=
  ⟨fun it hit => absurd hit (List.not_mem_nil it), List.nodup_nil, rfl⟩

/-- The batch a flush dequeues (lines 127-131): up to max_batch_size items
from the head of the queue. -/
def headBatch {T R : Type} (b : DynamicBatcher T R) : List (BatchItem T) :=
  b.queue.take (min b.queue.length b.max_batch_size)

/-- C3: along every add / flush trace from a fresh batcher — (1) every
queued item's result slot is still pending, so the flush that dequeues it
finds it unresolved; (2) a flush resolves the slot of every item it
dequeues (with a result or an error); (3) a slot once resolved is never
written again by any later add or flush.  Together: every enqueued item's
slot resolves exactly once, in the flush that dequeues it. -/
theorem batcher_resolve_once (T R : Type) (m : Nat)
    (process : List T → Except String (List R)) (ops : List (BatchOp T)) :
    (∀ it ∈ (runBatcher process (emptyBatcher T R m) ops).queue,
        (runBatcher process (emptyBatcher T R m) ops).slots[it.slot]? = some none) ∧
    (∀ it ∈ headBatch (runBatcher process (emptyBatcher T R m) ops),
        ∃ v, (processBatch process (runBatcher process (emptyBatcher T R m) ops)).2.slots[it.slot]?
            = some (some v)) ∧
    (∀ (op : BatchOp T) (i : Nat) (v : Except BatchError R),
        (runBatcher process (emptyBatcher T R m) ops).slots[i]? = some (some v) →
        (batchStep process (runBatcher process (emptyBatcher T R m) ops) op).slots[i]? =
          some (some v)) := by
  obtain ⟨hslots, hnd, hproc⟩ :=
    runBatcher_inv process ops (emptyBatcher T R m) (emptyBatcher_inv T R m)
  refine ⟨hslots, ?_, ?_⟩
  · by_cases hq : (runBatcher process (emptyBatcher T R m) ops).queue = []
    · intro it hit
      unfold headBatch at hit
      rw [hq] at hit
      simp at hit
    · obtain ⟨pairs, heq, hfst, hmem⟩ := processBatch_spec process _ hq hproc
      intro it hit
      obtain ⟨v, hv⟩ := hmem it hit
      refine ⟨v, ?_⟩
      rw [heq]
      have hndp : (pairs.map Prod.fst).Nodup := by
        rw [hfst, List.map_take]
        exact List.Nodup.sublist (List.take_sublist _ _) hnd
      have hinit : ∀ pr ∈ pairs,
          (runBatcher process (emptyBatcher T R m) ops).slots[pr.1]? = some none := by
        intro pr hpr
        have h1 : pr.1 ∈ pairs.map Prod.fst := List.mem_map_of_mem Prod.fst hpr
        rw [hfst] at h1
        obtain ⟨it', hit', heq'⟩ := List.mem_map.mp h1
        rw [← heq']
        exact hslots it' (List.take_subset _ _ hit')
      exact resolveMany_sets pairs _ hndp hinit (it.slot, v) hv
  · intro op i v hv
    cases op with
    | addOp d rid =>
        have hi : i < (runBatcher process (emptyBatcher T R m) ops).slots.length := by
          by_contra hge
          rw [List.getElem?_eq_none (by omega)] at hv
          exact absurd hv (by simp)
        show ((runBatcher process (emptyBatcher T R m) ops).slots ++ [none])[i]? = some (some v)
        rw [List.getElem?_append_left hi]
        exact hv
    | flushOp =>
        by_cases hq : (runBatcher process (emptyBatcher T R m) ops).queue = []
        · show (processBatch process _).2.slots[i]? = some (some v)
          rw [processBatch_empty process _ hq]
          exact hv
        · obtain ⟨pairs, heq, hfst, hmem⟩ := processBatch_spec process _ hq hproc
          show (processBatch process _).2.slots[i]? = some (some v)
          rw [heq]
          exact resolveMany_pres_some pairs _ i v hv

/-- Witness for C3: one payload added and flushed; the resolved slot
survives a further flush attempt untouched. -/
theorem batcher_resolve_once_witness :
    (batchStep (fun l => Except.ok (l.map (fun x => x * 2)))
        (runBatcher (fun l => Except.ok (l.map (fun x => x * 2)))
          (emptyBatcher Nat Nat 2) [BatchOp.addOp 5 "-", BatchOp.flushOp])
        BatchOp.flushOp).slots[0]? = some (some (Except.ok 10)) :=
  (batcher_resolve_once Nat Nat 2 (fun l => Except.ok (l.map (fun x => x * 2)))
      [BatchOp.addOp 5 "-", BatchOp.flushOp]).2.2 BatchOp.flushOp 0 (Except.ok 10) rfl

theorem processBatch_error_eq {T R : Type} (process : List T → Except String (List R))
    (b : DynamicBatcher T R) (e : String)
    (hq : b.queue ≠ []) (hp : b.is_processing = false)
    (hpr : process ((headBatch b).map (fun it => it.data)) = Except.error e) :
    processBatch process b =
      (some ((headBatch b).map (fun it => it.data)),
        { b with queue := b.queue.drop (min b.queue.length b.max_batch_size),
                 slots := resolveMany b.slots ((headBatch b).map (fun it =>
                   (it.slot, (Except.error (BatchError.fromProcess e) : Except BatchError R)))) }) := by
  have hemp : b.queue.isEmpty = false := List.isEmpty_eq_false.mpr hq
  unfold headBatch at hpr ⊢
  unfold processBatch
  rw [hemp, hp]
  simp only [Bool.or_self, Bool.false_eq_true, if_false]
  rw [hpr]

theorem processBatch_mismatch_eq {T R : Type} (process : List T → Except String (List R))
    (b : DynamicBatcher T R) (rs : List R)
    (hq : b.queue ≠ []) (hp : b.is_processing = false)
    (hpr : process ((headBatch b).map (fun it => it.data)) = Except.ok rs)
    (hlen : rs.length ≠ (headBatch b).length) :
    processBatch process b =
      (some ((headBatch b).map (fun it => it.data)),
        { b with queue := b.queue.drop (min b.queue.length b.max_batch_size),
                 slots := resolveMany b.slots ((headBatch b).map (fun it =>
                   (it.slot, (Except.error (BatchError.lengthMismatch rs.length
                     (headBatch b).length) : Except BatchError R)))) }) := by
  have hemp : b.queue.isEmpty = false := List.isEmpty_eq_false.mpr hq
  unfold headBatch at hpr hlen ⊢
  unfold processBatch
  rw [hemp, hp]
  simp only [Bool.or_self, Bool.false_eq_true, if_false]
  rw [hpr]
  dsimp only
  rw [if_neg hlen]

/-- Folding the same error into every dequeued item's slot resolves each of
them with that error. -/
theorem resolve_const_error {T R : Type} (b : DynamicBatcher T R)
    (err : Except BatchError R)
    (hslots : ∀ it ∈ b.queue, b.slots[it.slot]? = some none)
    (hnd : (b.queue.map (fun it => it.slot)).Nodup) :
    ∀ it ∈ headBatch b,
      (resolveMany b.slots ((headBatch b).map (fun it2 => (it2.slot, err))))[it.slot]? =
        some (some err) := by
  intro it hit
  have hndp : (((headBatch b).map (fun it2 => (it2.slot, err))).map Prod.fst).Nodup := by
    rw [List.map_map]
    show ((headBatch b).map (fun it2 => it2.slot)).Nodup
    unfold headBatch
    rw [List.map_take]
    exact List.Nodup.sublist (List.take_sublist _ _) hnd
  have hinit : ∀ pr ∈ (headBatch b).map (fun it2 => (it2.slot, err)),
      b.slots[pr.1]? = some none := by
    intro pr hpr
    obtain ⟨it', hit', heq'⟩ := List.mem_map.mp hpr
    rw [← heq']
    exact hslots it' (List.take_subset _ _ hit')
  exact resolveMany_sets _ b.slots hndp hinit (it.slot, err) (List.mem_map_of_mem _ hit)

/-- C2: for the batch a flush dequeues, if process raises, every dequeued
item's slot resolves with that same processing failure; if process returns
a result list of the wrong length, every dequeued item's slot resolves with
that same length-mismatch failure (the ValueError of line 150, caught by
the same error path).  No slot of the batch remains pending and none
receives a partial success. -/
theorem batcher_error_propagation (T R : Type) (m : Nat)
    (process : List T → Except String (List R)) (ops : List (BatchOp T)) (e : String)
    (rs : List R) :
    (process ((headBatch (runBatcher process (emptyBatcher T R m) ops)).map
        (fun it => it.data)) = Except.error e →
      ∀ it ∈ headBatch (runBatcher process (emptyBatcher T R m) ops),
        (processBatch process (runBatcher process (emptyBatcher T R m) ops)).2.slots[it.slot]? =
          some (some (Except.error (BatchError.fromProcess e)))) ∧
    (process ((headBatch (runBatcher process (emptyBatcher T R m) ops)).map
        (fun it => it.data)) = Except.ok rs →
      rs.length ≠ (headBatch (runBatcher process (emptyBatcher T R m) ops)).length →
      ∀ it ∈ headBatch (runBatcher process (emptyBatcher T R m) ops),
        (processBatch process (runBatcher process (emptyBatcher T R m) ops)).2.slots[it.slot]? =
          some (some (Except.error (BatchError.lengthMismatch rs.length
            (headBatch (runBatcher process (emptyBatcher T R m) ops)).length)))) := by
  obtain ⟨hslots, hnd, hproc⟩ :=
    runBatcher_inv process ops (emptyBatcher T R m) (emptyBatcher_inv T R m)
  constructor
  · intro hpr it hit
    have hq : (runBatcher process (emptyBatcher T R m) ops).queue ≠ [] := by
      intro h0
      unfold headBatch at hit
      rw [h0] at hit
      simp at hit
    rw [processBatch_error_eq process _ e hq hproc hpr]
    exact resolve_const_error _ _ hslots hnd it hit
  · intro hpr hlen it hit
    have hq : (runBatcher process (emptyBatcher T R m) ops).queue ≠ [] := by
      intro h0
      unfold headBatch at hit
      rw [h0] at hit
      simp at hit
    rw [processBatch_mismatch_eq process _ rs hq hproc hpr hlen]
    exact resolve_const_error _ _ hslots hnd it hit

/-- Witness for C2: two queued payloads, a batch processor that raises;
after the flush the second item's slot holds the propagated failure. -/
theorem batcher_error_propagation_witness :
    (processBatch (fun _ : List Nat => (Except.error "boom" : Except String (List Nat)))
        (runBatcher (fun _ : List Nat => (Except.error "boom" : Except String (List Nat)))
          (emptyBatcher Nat Nat 4) [BatchOp.addOp 1 "-", BatchOp.addOp 2 "-"])).2.slots[1]?
      = some (some (Except.error (BatchError.fromProcess "boom"))) :=
  (batcher_error_propagation Nat Nat 4
      (fun _ : List Nat => (Except.error "boom" : Except String (List Nat)))
      [BatchOp.addOp 1 "-", BatchOp.addOp 2 "-"] "boom" []).1 rfl
    { data := 2, slot := 1, request_id := "-" } (by decide)

end Temandifa
